import Mathlib

/-!
Verification of the `msg_storer` segmented log (`Storer`), its GCS archival
handler (`uploader.Uploader`), and the `nats_connector` work-queue consumer
backoff (`nakDelay`) from weedbox/common-modules.

The Go code is shallowly embedded: the local filesystem is an association
list from path to file contents, a NATS publish is an appended job record,
and the bucket store is a list of uploaded objects.  Strings are modeled as
Lean `String` (payloads in the repository are ASCII, so `String.length`
agrees with Go's byte length).  `path.Join`/`path.Dir` are modeled for the
already-clean, relative, slash-separated paths the module uses.
-/

namespace Weedbox

/-! ## Decimal formatting and parsing (fmt.Sprintf %d / strconv.ParseUint) -/

/-- The decimal digit character for `d` (`'0' + d` as in Go's formatter;
values ≥ 9 clamp to `'9'`, unreachable for actual digits). -/
def digitChar : Nat → Char
  | 0 => '0' | 1 => '1' | 2 => '2' | 3 => '3' | 4 => '4'
  | 5 => '5' | 6 => '6' | 7 => '7' | 8 => '8' | _ => '9'

/-- Fuel-driven most-significant-first decimal digits of `n`. -/
def natDigitsAux : Nat → Nat → List Char
  | 0, _ => []
  | fuel + 1, n =>
    if n < 10 then [digitChar n]
    else natDigitsAux fuel (n / 10) ++ [digitChar (n % 10)]

/-- Decimal digits of `n`, most significant first (`n + 1` is always enough fuel). -/
def natDigits (n : Nat) : List Char := natDigitsAux (n + 1) n

/-- `fmt.Sprintf "%d" n` for an unsigned integer. -/
def natRepr (n : Nat) : String := ⟨natDigits n⟩

/-- The numeric value of a decimal digit character, if it is one. -/
def charDigit? (c : Char) : Option Nat :=
  if 48 ≤ c.toNat ∧ c.toNat ≤ 57 then some (c.toNat - 48) else none

/-- Left-to-right decimal accumulation; fails on the first non-digit. -/
def parseDigitsAux (acc : Nat) : List Char → Option Nat
  | [] => some acc
  | c :: cs =>
    match charDigit? c with
    | some d => parseDigitsAux (acc * 10 + d) cs
    | none => none

/-- Go `strconv.ParseUint(s, 10, 64)`: non-empty all-digit string whose
value fits in 64 bits. -/
def parseUint64 (s : String) : Option Nat :=
  if s.data = [] then none
  else
    match parseDigitsAux 0 s.data with
    | some n => if n < 2 ^ 64 then some n else none
    | none => none

/-! ## Splitting and line scanning (strings.SplitN, bufio) -/

/-- Split a character list at the first occurrence of `sep`:
`some (before, after)` or `none` when `sep` does not occur. -/
def splitOnce (sep : Char) : List Char → Option (List Char × List Char)
  | [] => none
  | c :: cs =>
    if c = sep then some ([], cs)
    else
      match splitOnce sep cs with
      | some (a, b) => some (c :: a, b)
      | none => none

/-- Go `strings.SplitN(s, sep, 2)`: two pieces when `sep` occurs (the second
piece keeps any later separators), else the singleton `[s]`. -/
def splitN2 (s : String) (sep : Char) : List String :=
  match splitOnce sep s.data with
  | some (a, b) => [⟨a⟩, ⟨b⟩]
  | none => [s]

/-- Go `bufio.Reader.ReadString('\n')` as used in `getFirstSeqFromFile`:
the first line including its newline, or `none` (an I/O error, EOF hit
before any newline — this also covers the empty file). -/
def readFirstLine (s : String) : Option String :=
  match splitOnce '\n' s.data with
  | some (a, _) => some ⟨a ++ ['\n']⟩
  | none => none

/-- Accumulator-based splitting into newline-terminated tokens. -/
def scanLinesAux (acc : List Char) : List Char → List (List Char)
  | [] => if acc.isEmpty then [] else [acc.reverse]
  | c :: cs =>
    if c = '\n' then acc.reverse :: scanLinesAux [] cs
    else scanLinesAux (c :: acc) cs

/-- Go `bufio.Scanner` with the default line splitter: tokens are the lines
without their terminators; a trailing newline yields no extra empty token,
and a final unterminated line is returned. -/
def scanLines (s : String) : List String :=
  (scanLinesAux [] s.data).map fun l => ⟨l⟩

/-! ## Paths (path.Join / path.Dir on clean relative paths) -/

/-- `path.Join a b` for clean, non-empty, relative path segments. -/
def joinPath (a b : String) : String := a ++ "/" ++ b

/-- `path.Dir`: everything before the last slash, `"."` when there is none. -/
def dirPath (s : String) : String :=
  match splitOnce '/' s.data.reverse with
  | some (_, b) => ⟨b.reverse⟩
  | none => "."

/-! ## The local filesystem, modeled as path ↦ contents -/

/-- A filesystem: association list from file path to file contents. -/
abbrev FS : Type := List (String × String)

/-- Contents of the file at `p`, or `none` when it does not exist
(`os.Open` / `os.ReadFile` returning a not-exist error). -/
def fsRead : FS → String → Option String
  | [], _ => none
  | (q, c) :: rest, p => if q = p then some c else fsRead rest p

/-- Set the contents of `p` (creating the file when absent). -/
def fsWrite : FS → String → String → FS
  | [], p, c => [(p, c)]
  | (q, c0) :: rest, p, c =>
    if q = p then (q, c) :: rest else (q, c0) :: fsWrite rest p c

/-- Delete the file at `p` (`os.Rename` source removal, `os.RemoveAll`). -/
def fsRemove : FS → String → FS
  | [], _ => []
  | (q, c) :: rest, p =>
    if q = p then fsRemove rest p else (q, c) :: fsRemove rest p

/-- `os.OpenFile(p, O_APPEND|O_CREATE|O_WRONLY)` followed by one
`WriteString data`: append to the file, creating it when absent. -/
def fsAppend (fs : FS) (p data : String) : FS :=
  match fsRead fs p with
  | none => fsWrite fs p data
  | some c => fsWrite fs p (c ++ data)

/-- `os.Rename old new`: fails (`none`) when the source does not exist;
otherwise moves the contents, overwriting any file at `new`. -/
def fsRename (fs : FS) (old new : String) : Option FS :=
  (fsRead fs old).map fun c => fsWrite (fsRemove fs old) new c

/-! ## The Storer (msg_storer/msg_store.go) -/

/-- Error outcomes of the `Storer` operations.  `ioErr` stands for the
open/read errors Go surfaces verbatim, `parseErr` for a `strconv.ParseUint`
failure, `seqNotFound` for `ErrSeqNotFound`, and `outOfRange` for the
index-out-of-range crash `parseData[1]` would hit on a colon-free line. -/
inductive StoreErr where
  | ioErr
  | parseErr
  | seqNotFound
  | outOfRange
  deriving DecidableEq

/-- One JetStream publication made by `triggerUploader`:
`js.Publish(subject, []byte(data), nats.MsgId(data))`. -/
structure PubMsg where
  payload : String
  msgId : String
  deriving DecidableEq

/-- The mutable state a `Storer` instance touches: the single rotation-check
counter shared by all partitions, the local filesystem, and the list of
published archival jobs (in publication order). -/
structure StorerSt where
  counter : Nat
  fs : FS
  jobs : List PubMsg
  deriving DecidableEq

/-- `DefaultCurrentDB` joined under the partition directory
(`processFilename`; `os.MkdirAll` always succeeds in the model). -/
def currentPath (datastore dstPath : String) : String :=
  joinPath (joinPath datastore dstPath) "current.db"

/-- `DefaultArchiveIndex` joined under the partition directory. -/
def indexPath (datastore dstPath : String) : String :=
  joinPath (joinPath datastore dstPath) "archive.index"

/-- The 1 MiB segment-size threshold (`fileSize = 1024 * 1024 * 1`). -/
def goFileSize : Nat := 1024 * 1024 * 1

/-- `Storer.getFirstSeqFromFile`: open the file, read its first line, and
return everything before the first colon (`strings.SplitN(line, ":", 2)[0]`;
the line still carries its newline, so a colon-free line keeps it). -/
def getFirstSeqFromFile (fs : FS) (filename : String) : Except StoreErr String :=
  match fsRead fs filename with
  | none => .error .ioErr
  | some content =>
    match readFirstLine content with
    | none => .error .ioErr
    | some line => .ok ((splitN2 line ':').headD "")

/-- The scan loop of `GetArchivedFileBySeq` over the index lines: unparseable
first fields are skipped (`continue`), an entry with recorded sequence ≤ `seq`
overwrites `afile`, and the first entry exceeding `seq` breaks the loop.
`none` models the Go index-out-of-range crash on a qualifying colon-free line. -/
def scanIndex (seq : Nat) : List String → String → Option String
  | [], afile => some afile
  | l :: rest, afile =>
    let parseData := splitN2 l ':'
    match parseUint64 (parseData.headD "") with
    | none => scanIndex seq rest afile
    | some archiveSeq =>
      if archiveSeq ≤ seq then
        match parseData.get? 1 with
        | some a => scanIndex seq rest a
        | none => none
      else some afile

/-- `Storer.GetArchivedFileBySeq`: read the current segment's first sequence;
if `seq` is at least it, answer the current segment, else floor-scan the
partition's `archive.index`, answering `ErrSeqNotFound` when nothing
qualified (the scan left `afile` empty). -/
def GetArchivedFileBySeq (fs : FS) (datastore dstPath : String) (seq : Nat) :
    Except StoreErr String :=
  let currentFile := currentPath datastore dstPath
  match getFirstSeqFromFile fs currentFile with
  | .error e => .error e
  | .ok seqStr =>
    match parseUint64 seqStr with
    | none => .error .parseErr
    | some curSeq =>
      if curSeq ≤ seq then .ok currentFile
      else
        match fsRead fs (indexPath datastore dstPath) with
        | none => .error .ioErr
        | some content =>
          match scanIndex seq (scanLines content) "" with
          | none => .error .outOfRange
          | some afile => if afile ≠ "" then .ok afile else .error .seqNotFound

/-- `fmt.Sprintf("%d:%s\n", seq, rawData)`: the record line `MsgStore` appends. -/
def encodeRecord (seq : Nat) (rawData : String) : String :=
  natRepr seq ++ ":" ++ rawData ++ "\n"

/-- `Storer.updateIndex` (and the identical `Uploader.updateIndex`): append
`"<seq>:<archiveName>\n"` to `archive.index` in `filename`'s directory. -/
def updateIndex (fs : FS) (filename archiveName seq : String) : FS :=
  fsAppend fs (joinPath (dirPath filename) "archive.index")
    (seq ++ ":" ++ archiveName ++ "\n")

/-- `Storer.archiveFile` on the production path (the `TEST_MODE` environment
branch, which instead moves the segment under `datastore/archive` and updates
the index locally, is test-only and not modeled): read the first sequence,
rename the segment to `MSG_<seq>.db` beside it, and publish the archival job
`"<seq>:<archiveName>"` whose NATS message id is that same payload
(`triggerUploader` retries the publish until it succeeds, so exactly one
publication is recorded). -/
def archiveFile (sr : StorerSt) (filename : String) : Except StoreErr StorerSt :=
  match getFirstSeqFromFile sr.fs filename with
  | .error e => .error e
  | .ok seqStr =>
    let archiveName := joinPath (dirPath filename) ("MSG_" ++ seqStr ++ ".db")
    match fsRename sr.fs filename archiveName with
    | none => .error .ioErr
    | some fs1 =>
      let payload := seqStr ++ ":" ++ archiveName
      .ok { sr with
            fs := fs1
            jobs := sr.jobs ++ [⟨payload, payload⟩] }

/-- `Storer.MsgStore`.  The for-loop runs at most twice: when the shared
counter is below 100 it is incremented and the write proceeds; otherwise the
counter resets to 0 and the segment is statted (opening with `O_CREATE` first,
so a missing segment stats as empty); a segment at or above the threshold is
archived and the loop re-enters — the fresh segment then takes the
counter-below-100 branch (0 < 100), incrementing the counter to 1 before the
write. -/
def msgStore (sr : StorerSt) (datastore dstPath : String) (seq : Nat)
    (rawData : String) : Except StoreErr (StorerSt × String) :=
  let dstFile := currentPath datastore dstPath
  let record := encodeRecord seq rawData
  if sr.counter < 100 then
    .ok ({ sr with
           counter := sr.counter + 1
           fs := fsAppend sr.fs dstFile record }, dstFile)
  else
    let sr0 : StorerSt := { sr with counter := 0 }
    let size := ((fsRead sr0.fs dstFile).getD "").length
    if goFileSize ≤ size then
      match archiveFile sr0 dstFile with
      | .error e => .error e
      | .ok sr1 =>
        .ok ({ sr1 with
               counter := sr1.counter + 1
               fs := fsAppend sr1.fs dstFile record }, dstFile)
    else
      .ok ({ sr0 with fs := fsAppend sr0.fs dstFile record }, dstFile)

/-! ## The Uploader (msg_storer/gcs_uploader/uploader.go) -/

/-- The two consumer responses `msgHandler` can give: `m.Ack()` or `m.Nak()`. -/
inductive AckAction where
  | ack
  | nak
  deriving DecidableEq

/-- One object committed to the bucket by `saveFile` (its key, its bytes,
and whether the public-read ACL `AllUsers: RoleReader` was set). -/
structure BucketObj where
  key : String
  data : String
  publicRead : Bool
  deriving DecidableEq

/-- The state `msgHandler` touches: the local filesystem (segments and the
archive index) and the remote bucket contents. -/
structure UploaderSt where
  fs : FS
  bucket : List BucketObj
  deriving DecidableEq

/-- The uploader configuration fields `msgHandler`/`saveFile` read. -/
structure UploaderCfg where
  bucketName : String
  bucketCategory : String

/-- Failure injection for the external effects of one `msgHandler` run:
a read error that is not not-exist, a failed upload (`io.Copy`/`Close`),
a failed index append, and a failed local deletion. -/
structure FailEnv where
  readFails : Bool
  uploadFails : Bool
  indexFails : Bool
  removeFails : Bool

/-- `Uploader.saveFile`: write the bytes to the bucket under
`<category>/<fileName>` with the public-read ACL and return
`https://<bucket>/<key>` (for the slash-and-unreserved-character names this
module produces, `url.EscapedPath` is the identity).  A failed copy or close
commits nothing. -/
def saveFile (env : FailEnv) (cfg : UploaderCfg) (st : UploaderSt)
    (fileName rawData : String) : Option (UploaderSt × String) :=
  let filePath := cfg.bucketCategory ++ "/" ++ fileName
  if env.uploadFails then none
  else
    some ({ st with bucket := st.bucket ++ [⟨filePath, rawData, true⟩] },
          "https://" ++ cfg.bucketName ++ "/" ++ filePath)

/-- `Uploader.msgHandler` on one delivered job `"<seq>:<path>"`: a missing
segment file is skipped and acked; any other read error naks; then upload,
index append, and local deletion happen in that order, each failure naking
(the failed step leaves its own target unchanged), and only full success
acks.  `none` models the Go index-out-of-range crash on a colon-free
message. -/
def msgHandler (env : FailEnv) (cfg : UploaderCfg) (st : UploaderSt)
    (msgData : String) : Option (UploaderSt × AckAction) :=
  let mdata := splitN2 msgData ':'
  match mdata.get? 1 with
  | none => none
  | some archiveFilename =>
    match fsRead st.fs archiveFilename with
    | none => some (st, .ack)
    | some data =>
      if env.readFails then some (st, .nak)
      else
        match saveFile env cfg st archiveFilename data with
        | none => some (st, .nak)
        | some (st1, url) =>
          if env.indexFails then some (st1, .nak)
          else
            let st2 : UploaderSt :=
              { st1 with fs := updateIndex st1.fs archiveFilename url (mdata.headD "") }
            if env.removeFails then some (st2, .nak)
            else some ({ st2 with fs := fsRemove st2.fs archiveFilename }, .ack)

/-- Two consecutive deliveries of the same job, the second starting from the
state the first produced (failure injection may differ between the runs). -/
def msgHandlerTwice (env1 env2 : FailEnv) (cfg : UploaderCfg) (st : UploaderSt)
    (msgData : String) : Option (UploaderSt × AckAction) :=
  (msgHandler env1 cfg st msgData).bind fun r => msgHandler env2 cfg r.1 msgData

/-! ## The work-queue consumer backoff (nats_connector nakDelay) -/

/-- Reinterpret an integer as a 64-bit two's-complement value
(the wrap-around Go's `int64`/`time.Duration` arithmetic performs). -/
def wrap64 (x : Int) : Int := (x + 2 ^ 63) % 2 ^ 64 - 2 ^ 63

/-- Go's `1 << s` at type `int64`: zero once every bit is shifted out,
otherwise `2^s` wrapped (so `1 << 63` is the minimum `int64`). -/
def goShlOne (s : Nat) : Int := if 64 ≤ s then 0 else wrap64 (2 ^ s)

/-- `WorkQueueConsumer.nakDelay`.  `numDelivered` is the broker metadata
`meta.NumDelivered` (a `uint64`; a metadata error behaves like 0), and `j`
is the value `rand.Int63n(jitterRange)` returned, always in
`[0, nakJitterRange ackWaitCfg numDelivered)` — the range computation is
factored out below since the random draw is an input here.  Division is
Go's truncated division; products and sums wrap as `int64`.  The result is
`none` exactly when `attempt - 1` is negative, where Go's shift would crash
at run time. -/
def nakDelay (ackWaitCfg : Int) (numDelivered : Nat) (j : Int) : Option Int :=
  let attempt : Int := if 0 < numDelivered then wrap64 numDelivered else 1
  let ackWait : Int := if ackWaitCfg ≤ 0 then 30000000000 else ackWaitCfg
  let b0 := Int.tdiv ackWait 4
  let baseDelay := if b0 < 1000000000 then 1000000000 else b0
  let m0 := wrap64 (ackWait - 1000000000)
  let maxDelay := if m0 ≤ 0 then baseDelay else m0
  if attempt - 1 < 0 then none
  else
    let d0 := wrap64 (baseDelay * goShlOne (attempt - 1).toNat)
    let delay := if maxDelay < d0 then maxDelay else d0
    let finalDelay := wrap64 (delay + j)
    some (if finalDelay ≤ 0 then baseDelay else finalDelay)

/-- The claim's jitter upper bound `max(1ms, delay/5)` for a given run,
expressed on the code's delay computation so theorem hypotheses can
constrain the random draw the way `rand.Int63n(jitterRange)` does. -/
def nakJitterRange (ackWaitCfg : Int) (numDelivered : Nat) : Int :=
  let attempt : Int := if 0 < numDelivered then wrap64 numDelivered else 1
  let ackWait : Int := if ackWaitCfg ≤ 0 then 30000000000 else ackWaitCfg
  let b0 := Int.tdiv ackWait 4
  let baseDelay := if b0 < 1000000000 then 1000000000 else b0
  let m0 := wrap64 (ackWait - 1000000000)
  let maxDelay := if m0 ≤ 0 then baseDelay else m0
  let d0 := wrap64 (baseDelay * goShlOne (attempt - 1).toNat)
  let delay := if maxDelay < d0 then maxDelay else d0
  let jr0 := Int.tdiv delay 5
  if jr0 < 1000000 then 1000000 else jr0

/-! ## Spec-side definitions (transcribed from the specification's words,
for the refinement comparisons) -/

/-- The spec's floor-lookup over index entries `(recorded_sequence,
archive_reference)` in file order: retain the last entry whose recorded
sequence is ≤ `s`, stop as soon as an entry exceeds `s`; `none` when no
entry qualified. -/
def specFloorScan (s : Nat) (acc : Option String) :
    List (Nat × String) → Option String
  | [] => acc
  | e :: rest => if e.1 ≤ s then specFloorScan s (some e.2) rest else acc

/-- The `afile` string the code's scan threads for an abstract retained
entry: the empty string for "nothing retained yet". -/
def optStr (o : Option String) : String := o.getD ""

/-- The index file contents encoding the given entries, one
`<recorded_sequence>:<archive_reference>` line each (what repeated
`updateIndex` calls produce). -/
def indexContent : List (Nat × String) → String
  | [] => ""
  | e :: rest => natRepr e.1 ++ ":" ++ e.2 ++ "\n" ++ indexContent rest

/-- The spec's `base = max(1s, AckWait/4)` (nanoseconds, exact arithmetic). -/
def specBase (ackWait : Int) : Int := max 1000000000 (Int.tdiv ackWait 4)

/-- The spec's `delay = min(base * 2^(attempt-1), AckWait - 1s)`, with the
cap replaced by `base` when `AckWait - 1s ≤ 0`; `attempt = max(1,
NumDelivered)`.  Exact integer arithmetic, per the claim's formula. -/
def specDelay (ackWait : Int) (numDelivered : Nat) : Int :=
  let attempt := max 1 numDelivered
  let cap := ackWait - 1000000000
  if cap ≤ 0 then min (specBase ackWait * 2 ^ (attempt - 1)) (specBase ackWait)
  else min (specBase ackWait * 2 ^ (attempt - 1)) cap

/-- The spec's `final_delay = delay + jitter`, floored to `base` when the
sum is ≤ 0. -/
def specNakDelay (ackWait : Int) (numDelivered : Nat) (j : Int) : Int :=
  let sum := specDelay ackWait numDelivered + j
  if sum ≤ 0 then specBase ackWait else sum

/-! ## Concrete states used by the example-based claims -/

/-- A partition whose current segment starts at sequence 5000 and whose
archive index holds `1001 → A`, `2001 → B`, `3001 → C`. -/
def exFS : FS :=
  [("datastore/100/100/current.db", "5000:x\n"),
   ("datastore/100/100/archive.index", "1001:A\n2001:B\n3001:C\n")]

/-- An uploader configuration with bucket `bkt` and category `cat`. -/
def exCfg : UploaderCfg := ⟨"bkt", "cat"⟩

/-- No injected failures: every external effect succeeds. -/
def envOk : FailEnv := ⟨false, false, false, false⟩

/-- Only the local deletion fails (the state after upload and index append
is kept, and the job is naked for redelivery). -/
def envRemoveFails : FailEnv := ⟨false, false, false, true⟩

/-- An uploader state holding one archived segment `d/p/MSG_5.db` and no
index yet. -/
def exUpSt : UploaderSt := ⟨[("d/p/MSG_5.db", "5:x\n")], []⟩

/-- The archival job message for that segment. -/
def exJob : String := "5:d/p/MSG_5.db"

/-- The index line one successful handler run appends for `exJob`. -/
def exLine : String := "5:https://bkt/cat/d/p/MSG_5.db"

/-- 1048574 bytes of payload for the oversized segment. -/
def bigMid : String := ⟨List.replicate 1048574 'a'⟩

/-- A current segment one byte above the 1 MiB rotation threshold, starting
at sequence 7 (1048577 bytes in all). -/
def bigContent : String := "7" ++ ":" ++ bigMid ++ "\n" ++ ""

/-- A storer whose shared counter has reached the check interval while
partition `100/100` holds `bigContent`. -/
def bigSt : StorerSt := ⟨100, [("datastore/100/100/current.db", bigContent)], []⟩

/-! ## String and character toolkit lemmas -/

theorem data_append (a b : String) : (a ++ b).data = a.data ++ b.data := rfl

theorem data_mk (l : List Char) : (String.mk l).data = l := rfl

theorem mk_eq_iff (l m : List Char) : String.mk l = String.mk m ↔ l = m := by
  constructor
  · intro h
    exact congrArg String.data h
  · intro h
    exact congrArg String.mk h

theorem string_eq_iff_data (a b : String) : a = b ↔ a.data = b.data := by
  cases a
  cases b
  exact mk_eq_iff _ _

theorem splitOnce_append_cons (sep : Char) (xs ys : List Char) (h : sep ∉ xs) :
    splitOnce sep (xs ++ sep :: ys) = some (xs, ys) := by
  induction xs with
  | nil => simp [splitOnce]
  | cons c cs ih =>
    have hc : c ≠ sep := fun hc => h (hc ▸ List.mem_cons_self c cs)
    have hcs : sep ∉ cs := fun hm => h (List.mem_cons_of_mem c hm)
    simp [splitOnce, hc, ih hcs]

theorem splitOnce_eq_none (sep : Char) (xs : List Char) (h : sep ∉ xs) :
    splitOnce sep xs = none := by
  induction xs with
  | nil => rfl
  | cons c cs ih =>
    have hc : c ≠ sep := fun hc => h (hc ▸ List.mem_cons_self c cs)
    have hcs : sep ∉ cs := fun hm => h (List.mem_cons_of_mem c hm)
    simp [splitOnce, hc, ih hcs]

theorem splitN2_of_data (s : String) (sep : Char) (xs ys : List Char)
    (hdata : s.data = xs ++ sep :: ys) (hx : sep ∉ xs) :
    splitN2 s sep = [⟨xs⟩, ⟨ys⟩] := by
  unfold splitN2
  rw [hdata, splitOnce_append_cons sep xs ys hx]

theorem readFirstLine_append (a rest : String) (h : ('\n' : Char) ∉ a.data) :
    readFirstLine (a ++ "\n" ++ rest) = some (a ++ "\n") := by
  unfold readFirstLine
  have hdata : (a ++ "\n" ++ rest).data = a.data ++ '\n' :: rest.data := by
    simp [data_append]
  rw [hdata, splitOnce_append_cons '\n' a.data rest.data h]
  rfl

/-! ## Decimal digit lemmas -/

theorem digitChar_toNat_bounds (d : Nat) :
    48 ≤ (digitChar d).toNat ∧ (digitChar d).toNat ≤ 57 := by
  match d with
  | 0 | 1 | 2 | 3 | 4 | 5 | 6 | 7 | 8 => decide
  | n + 9 => exact (by decide : 48 ≤ ('9' : Char).toNat ∧ ('9' : Char).toNat ≤ 57)

theorem charDigit?_digitChar (d : Nat) (h : d < 10) :
    charDigit? (digitChar d) = some d := by
  interval_cases d <;> decide

theorem natDigitsAux_toNat_bounds (fuel n : Nat) (c : Char)
    (hc : c ∈ natDigitsAux fuel n) : 48 ≤ c.toNat ∧ c.toNat ≤ 57 := by
  induction fuel generalizing n with
  | zero => simp [natDigitsAux] at hc
  | succ fuel ih =>
    unfold natDigitsAux at hc
    by_cases h10 : n < 10
    · simp [h10] at hc
      exact hc ▸ digitChar_toNat_bounds n
    · simp [h10, List.mem_append] at hc
      rcases hc with hc | hc
      · exact ih _ hc
      · exact hc ▸ digitChar_toNat_bounds (n % 10)

theorem natDigits_no_colon (n : Nat) : (':' : Char) ∉ natDigits n := by
  intro hc
  have := natDigitsAux_toNat_bounds (n + 1) n ':' hc
  revert this
  decide

theorem natDigits_no_newline (n : Nat) : ('\n' : Char) ∉ natDigits n := by
  intro hc
  have := natDigitsAux_toNat_bounds (n + 1) n '\n' hc
  revert this
  decide

theorem parseDigitsAux_cons (acc : Nat) (c : Char) (cs : List Char) :
    parseDigitsAux acc (c :: cs) =
      match charDigit? c with
      | some d => parseDigitsAux (acc * 10 + d) cs
      | none => none := rfl

theorem natDigitsAux_ne_nil (fuel n : Nat) (h : n < fuel) :
    natDigitsAux fuel n ≠ [] := by
  match fuel with
  | fuel + 1 =>
    unfold natDigitsAux
    by_cases h10 : n < 10 <;> simp [h10]

theorem parseDigitsAux_natDigitsAux (fuel : Nat) :
    ∀ n acc (cs : List Char), n < fuel →
      parseDigitsAux acc (natDigitsAux fuel n ++ cs) =
        parseDigitsAux (acc * 10 ^ (natDigitsAux fuel n).length + n) cs := by
  induction fuel with
  | zero => intro n acc cs h; omega
  | succ fuel ih =>
    intro n acc cs h
    unfold natDigitsAux
    by_cases h10 : n < 10
    · simp only [if_pos h10, List.cons_append, List.nil_append, List.length_cons,
        List.length_nil]
      rw [parseDigitsAux_cons, charDigit?_digitChar n h10]
      congr 1
    · have hrec : n / 10 < fuel := by omega
      simp only [if_neg h10, List.append_assoc, List.cons_append, List.nil_append]
      rw [ih (n / 10) acc (digitChar (n % 10) :: cs) hrec]
      rw [parseDigitsAux_cons, charDigit?_digitChar (n % 10) (Nat.mod_lt n (by norm_num))]
      simp only [List.length_append, List.length_cons, List.length_nil]
      congr 1
      have hdm : 10 * (n / 10) + n % 10 = n := Nat.div_add_mod n 10
      set L := (natDigitsAux fuel (n / 10)).length with hL
      calc (acc * 10 ^ L + n / 10) * 10 + n % 10
          = acc * (10 ^ L * 10) + (10 * (n / 10) + n % 10) := by ring
        _ = acc * 10 ^ (L + (0 + 1)) + n := by rw [hdm, Nat.zero_add, pow_succ]

theorem parseUint64_natRepr (n : Nat) (h : n < 2 ^ 64) :
    parseUint64 (natRepr n) = some n := by
  unfold parseUint64 natRepr
  have hne : natDigits n ≠ [] := natDigitsAux_ne_nil (n + 1) n (Nat.lt_succ_self n)
  rw [data_mk]
  rw [if_neg hne]
  have := parseDigitsAux_natDigitsAux (n + 1) n 0 [] (Nat.lt_succ_self n)
  rw [List.append_nil] at this
  unfold natDigits
  rw [this]
  simp only [parseDigitsAux, Nat.zero_mul, Nat.zero_add]
  rw [if_pos h]

/-! ## Line-scanner lemmas -/

theorem scanLinesAux_cons (acc : List Char) (c : Char) (cs : List Char) :
    scanLinesAux acc (c :: cs) =
      if c = '\n' then acc.reverse :: scanLinesAux [] cs
      else scanLinesAux (c :: acc) cs := rfl

theorem scanLinesAux_line (line : List Char) (hn : ('\n' : Char) ∉ line) :
    ∀ (acc rest : List Char),
      scanLinesAux acc (line ++ '\n' :: rest) =
        (acc.reverse ++ line) :: scanLinesAux [] rest := by
  induction line with
  | nil =>
    intro acc rest
    simp [scanLinesAux_cons]
  | cons c cs ih =>
    intro acc rest
    have hc : c ≠ '\n' := fun hc => hn (hc ▸ List.mem_cons_self c cs)
    have hcs : ('\n' : Char) ∉ cs := fun hm => hn (List.mem_cons_of_mem c hm)
    simp only [List.cons_append]
    rw [scanLinesAux_cons, if_neg hc, ih hcs (c :: acc) rest]
    simp

/-- A file that is a concatenation of newline-terminated lines scans to
exactly those lines. -/
theorem scanLinesAux_lines (lines : List (List Char))
    (h : ∀ l ∈ lines, ('\n' : Char) ∉ l) :
    scanLinesAux [] (lines.foldr (fun l acc => l ++ '\n' :: acc) []) = lines := by
  induction lines with
  | nil => rfl
  | cons l ls ih =>
    have hl : ('\n' : Char) ∉ l := h l (List.mem_cons_self l ls)
    have hls : ∀ x ∈ ls, ('\n' : Char) ∉ x := fun x hx => h x (List.mem_cons_of_mem l hx)
    simp only [List.foldr_cons]
    rw [scanLinesAux_line l hl [] _, ih hls]
    simp

/-! ## Filesystem lemmas -/

theorem fsRead_fsWrite_self (fs : FS) (p c : String) :
    fsRead (fsWrite fs p c) p = some c := by
  induction fs with
  | nil => simp [fsWrite, fsRead]
  | cons e rest ih =>
    obtain ⟨q, c0⟩ := e
    by_cases hq : q = p
    · simp [fsWrite, fsRead, hq]
    · simp [fsWrite, fsRead, hq, ih]

theorem fsRead_fsWrite_ne (fs : FS) (p c q : String) (h : q ≠ p) :
    fsRead (fsWrite fs p c) q = fsRead fs q := by
  induction fs with
  | nil => simp [fsWrite, fsRead, Ne.symm h]
  | cons e rest ih =>
    obtain ⟨k, c0⟩ := e
    by_cases hk : k = p
    · subst hk
      simp [fsWrite, fsRead, Ne.symm h]
    · simp [fsWrite, fsRead, hk, ih]

theorem fsRead_fsRemove_self (fs : FS) (p : String) :
    fsRead (fsRemove fs p) p = none := by
  induction fs with
  | nil => rfl
  | cons e rest ih =>
    obtain ⟨k, c0⟩ := e
    by_cases hk : k = p
    · simp [fsRemove, hk, ih]
    · simp [fsRemove, fsRead, hk, ih]

theorem fsRead_fsRemove_ne (fs : FS) (p q : String) (h : q ≠ p) :
    fsRead (fsRemove fs p) q = fsRead fs q := by
  induction fs with
  | nil => rfl
  | cons e rest ih =>
    obtain ⟨k, c0⟩ := e
    by_cases hk : k = p
    · subst hk
      simp [fsRemove, fsRead, ih, Ne.symm h]
    · simp [fsRemove, fsRead, hk, ih]

theorem fsAppend_of_none (fs : FS) (p data : String) (h : fsRead fs p = none) :
    fsAppend fs p data = fsWrite fs p data := by
  unfold fsAppend
  rw [h]

theorem fsAppend_of_some (fs : FS) (p data c : String) (h : fsRead fs p = some c) :
    fsAppend fs p data = fsWrite fs p (c ++ data) := by
  unfold fsAppend
  rw [h]

theorem fsRead_fsAppend_self (fs : FS) (p data : String) :
    fsRead (fsAppend fs p data) p =
      some (((fsRead fs p).getD "") ++ data) := by
  unfold fsAppend
  cases h : fsRead fs p with
  | none =>
    rw [fsRead_fsWrite_self]
    simp [string_eq_iff_data]
  | some c => rw [fsRead_fsWrite_self]; rfl

theorem fsRead_fsAppend_ne (fs : FS) (p data q : String) (h : q ≠ p) :
    fsRead (fsAppend fs p data) q = fsRead fs q := by
  unfold fsAppend
  cases fsRead fs p <;> rw [fsRead_fsWrite_ne _ _ _ _ h]

/-! ## Path lemmas -/

theorem dirPath_joinPath (d n : String) (h : ('/' : Char) ∉ n.data) :
    dirPath (joinPath d n) = d := by
  unfold dirPath joinPath
  have hdata : (d ++ "/" ++ n).data.reverse = n.data.reverse ++ '/' :: d.data.reverse := by
    simp [data_append]
  have hrev : ('/' : Char) ∉ n.data.reverse := by simpa using h
  rw [hdata, splitOnce_append_cons '/' n.data.reverse d.data.reverse hrev]
  simp [string_eq_iff_data]

theorem joinPath_ne_of_ne (d a b : String) (h : a ≠ b) :
    joinPath d a ≠ joinPath d b := by
  unfold joinPath
  intro hab
  apply h
  rw [string_eq_iff_data] at hab ⊢
  simp only [data_append] at hab
  exact List.append_cancel_left hab

/-! ## Index-scan lemmas -/

theorem scanIndex_cons (seq : Nat) (l : String) (rest : List String) (afile : String) :
    scanIndex seq (l :: rest) afile =
      match parseUint64 ((splitN2 l ':').headD "") with
      | none => scanIndex seq rest afile
      | some archiveSeq =>
        if archiveSeq ≤ seq then
          match (splitN2 l ':').get? 1 with
          | some a => scanIndex seq rest a
          | none => none
        else some afile := rfl

theorem splitN2_indexLine (q : Nat) (r : String) :
    splitN2 (natRepr q ++ ":" ++ r) ':' = [natRepr q, r] := by
  have hdata : (natRepr q ++ ":" ++ r).data = natDigits q ++ ':' :: r.data := by
    simp [data_append, natRepr, data_mk]
  have := splitN2_of_data (natRepr q ++ ":" ++ r) ':' (natDigits q) r.data hdata
    (natDigits_no_colon q)
  rw [this]
  rfl

theorem scanLines_indexContent (es : List (Nat × String))
    (h : ∀ e ∈ es, ('\n' : Char) ∉ e.2.data) :
    scanLines (indexContent es) = es.map fun e => natRepr e.1 ++ ":" ++ e.2 := by
  induction es with
  | nil => rfl
  | cons e rest ih =>
    obtain ⟨q, r⟩ := e
    have hr : ('\n' : Char) ∉ r.data := h (q, r) (List.mem_cons_self _ _)
    have hrest : ∀ x ∈ rest, ('\n' : Char) ∉ x.2.data :=
      fun x hx => h x (List.mem_cons_of_mem _ hx)
    have hline : ('\n' : Char) ∉ (natRepr q ++ ":" ++ r).data := by
      have hdataline : (natRepr q ++ ":" ++ r).data = natDigits q ++ ':' :: r.data := by
        simp [data_append, natRepr, data_mk]
      rw [hdataline]
      intro hmem
      rcases List.mem_append.mp hmem with hmem | hmem
      · exact natDigits_no_newline q hmem
      · rcases List.mem_cons.mp hmem with hmem | hmem
        · exact absurd hmem (by decide)
        · exact hr hmem
    unfold scanLines at ih ⊢
    have hdata : (indexContent ((q, r) :: rest)).data =
        (natRepr q ++ ":" ++ r).data ++ '\n' :: (indexContent rest).data := by
      show (natRepr q ++ ":" ++ r ++ "\n" ++ indexContent rest).data = _
      simp [data_append]
    rw [hdata, scanLinesAux_line _ hline [] _]
    simp only [List.map_cons, List.nil_append, List.map]
    rw [ih hrest]
    rfl

theorem specFloorScan_cons (s : Nat) (acc : Option String) (q : Nat) (r : String)
    (rest : List (Nat × String)) :
    specFloorScan s acc ((q, r) :: rest) =
      if q ≤ s then specFloorScan s (some r) rest else acc := rfl

theorem scanIndex_encoded (s : Nat) (es : List (Nat × String)) :
    ∀ acc : Option String, (∀ e ∈ es, e.1 < 2 ^ 64) →
      scanIndex s (es.map fun e => natRepr e.1 ++ ":" ++ e.2) (optStr acc) =
        some (optStr (specFloorScan s acc es)) := by
  induction es with
  | nil => intro acc _; rfl
  | cons e rest ih =>
    intro acc hlt
    obtain ⟨q, r⟩ := e
    have hq : q < 2 ^ 64 := hlt (q, r) (List.mem_cons_self _ _)
    have hrest : ∀ x ∈ rest, x.1 < 2 ^ 64 := fun x hx => hlt x (List.mem_cons_of_mem _ hx)
    simp only [List.map_cons]
    rw [scanIndex_cons, splitN2_indexLine]
    show (match parseUint64 (natRepr q) with
      | none => scanIndex s (rest.map fun e : Nat × String => natRepr e.1 ++ ":" ++ e.2)
          (optStr acc)
      | some archiveSeq =>
        if archiveSeq ≤ s then
          match ([natRepr q, r] : List String).get? 1 with
          | some a => scanIndex s (rest.map fun e : Nat × String => natRepr e.1 ++ ":" ++ e.2) a
          | none => none
        else some (optStr acc)) = _
    rw [parseUint64_natRepr q hq]
    by_cases hle : q ≤ s
    · simp only [if_pos hle]
      show scanIndex s (rest.map fun e => natRepr e.1 ++ ":" ++ e.2) r = _
      have h2 := ih (some r) hrest
      have hopt : optStr (some r) = r := rfl
      rw [hopt] at h2
      rw [h2, specFloorScan_cons, if_pos hle]
    · simp only [if_neg hle]
      show some (optStr acc) = _
      rw [specFloorScan_cons, if_neg hle]

theorem specFloorScan_ne_some_empty (s : Nat) (es : List (Nat × String)) :
    ∀ acc : Option String, acc ≠ some "" → (∀ e ∈ es, e.2 ≠ "") →
      specFloorScan s acc es ≠ some "" := by
  induction es with
  | nil => intro acc hacc _; exact hacc
  | cons e rest ih =>
    intro acc hacc hne
    obtain ⟨q, r⟩ := e
    rw [specFloorScan_cons]
    by_cases hle : q ≤ s
    · rw [if_pos hle]
      exact ih (some r)
        (fun hsome => hne (q, r) (List.mem_cons_self _ _) (Option.some.inj hsome))
        (fun x hx => hne x (List.mem_cons_of_mem _ hx))
    · rw [if_neg hle]
      exact hacc

theorem scanIndex_dup (s : Nat) (pre : List String) (l : String) (post : List String) :
    ∀ afile : String,
      scanIndex s (pre ++ l :: l :: post) afile =
        scanIndex s (pre ++ l :: post) afile := by
  induction pre with
  | nil =>
    intro afile
    simp only [List.nil_append]
    cases hp : parseUint64 ((splitN2 l ':').headD "") with
    | none => simp only [scanIndex_cons, hp]
    | some q =>
      by_cases hq : q ≤ s
      · cases hg : (splitN2 l ':').get? 1 with
        | none => simp only [scanIndex_cons, hp, hg, if_pos hq]
        | some a => simp only [scanIndex_cons, hp, hg, if_pos hq]
      · simp only [scanIndex_cons, hp, if_neg hq]
  | cons x pre ih =>
    intro afile
    simp only [List.cons_append]
    cases hp : parseUint64 ((splitN2 x ':').headD "") with
    | none => simp only [scanIndex_cons, hp]; exact ih afile
    | some q =>
      by_cases hq : q ≤ s
      · cases hg : (splitN2 x ':').get? 1 with
        | none => simp only [scanIndex_cons, hp, hg, if_pos hq]
        | some a => simp only [scanIndex_cons, hp, hg, if_pos hq]; exact ih a
      · simp only [scanIndex_cons, hp, if_neg hq]

/-! ## 64-bit wrap lemmas -/

theorem wrap64_eq_of (x : Int) (h1 : -(2 ^ 63) ≤ x) (h2 : x < 2 ^ 63) :
    wrap64 x = x := by
  unfold wrap64
  have hmod : (x + 2 ^ 63) % 2 ^ 64 = x + 2 ^ 63 :=
    Int.emod_eq_of_lt (by omega) (by omega)
  omega

theorem no_newline_indexLine (q : Nat) (r : String) (hr : ('\n' : Char) ∉ r.data) :
    ('\n' : Char) ∉ (natRepr q ++ ":" ++ r).data := by
  have hdataline : (natRepr q ++ ":" ++ r).data = natDigits q ++ ':' :: r.data := by
    simp [data_append, natRepr, data_mk]
  rw [hdataline]
  intro hmem
  rcases List.mem_append.mp hmem with hmem | hmem
  · exact natDigits_no_newline q hmem
  · rcases List.mem_cons.mp hmem with hmem | hmem
    · exact absurd hmem (by decide)
    · exact hr hmem

theorem getFirstSeq_encoded (fs : FS) (file : String) (c : Nat) (r rest : String)
    (hc : fsRead fs file = some (natRepr c ++ ":" ++ r ++ "\n" ++ rest))
    (hr : ('\n' : Char) ∉ r.data) :
    getFirstSeqFromFile fs file = .ok (natRepr c) := by
  have hAn : ('\n' : Char) ∉ (natRepr c ++ ":" ++ r).data := no_newline_indexLine c r hr
  have hsplit : splitN2 (natRepr c ++ ":" ++ r ++ "\n") ':' = [natRepr c, r ++ "\n"] := by
    apply splitN2_of_data _ _ (natDigits c) (r ++ "\n").data _ (natDigits_no_colon c)
    simp [data_append, natRepr, data_mk]
  simp only [getFirstSeqFromFile, hc]
  rw [readFirstLine_append _ _ hAn]
  simp only [hsplit]
  rfl

/-! # Claim theorems -/

/-- Claim C1: `GetArchivedFileBySeq` first reads the first sequence `c` of
the partition's current segment; if the requested `s ≥ c` it returns the
current segment's path, otherwise it scans `archive.index` in file order,
retaining the reference of the last entry whose recorded sequence is `≤ s`,
stopping once an entry exceeds `s`, and returns that reference, or
`ErrSeqNotFound` when no entry qualified — i.e. it agrees with the spec's
floor-lookup `specFloorScan`.  (The witness instantiates the spec's example:
index `[1001 → A, 2001 → B, 3001 → C]`, current segment starting at 5000.) -/
theorem getArchivedFileBySeq_floor_lookup
    (fs : FS) (datastore dstPath : String) (s c : Nat) (r rest : String)
    (es : List (Nat × String))
    (hc : c < 2 ^ 64)
    (hr : ('\n' : Char) ∉ r.data)
    (hcur : fsRead fs (currentPath datastore dstPath) =
      some (natRepr c ++ ":" ++ r ++ "\n" ++ rest))
    (hidx : fsRead fs (indexPath datastore dstPath) = some (indexContent es))
    (hes : ∀ e ∈ es, e.1 < 2 ^ 64 ∧ e.2 ≠ "" ∧ ('\n' : Char) ∉ e.2.data) :
    GetArchivedFileBySeq fs datastore dstPath s =
      if c ≤ s then .ok (currentPath datastore dstPath)
      else
        match specFloorScan s none es with
        | some a => .ok a
        | none => .error .seqNotFound := by
  have hfirst := getFirstSeq_encoded fs (currentPath datastore dstPath) c r rest hcur hr
  simp only [GetArchivedFileBySeq, hfirst, parseUint64_natRepr c hc]
  by_cases hcs : c ≤ s
  · simp [hcs]
  · rw [if_neg hcs, if_neg hcs, hidx]
    show (match scanIndex s (scanLines (indexContent es)) "" with
      | none => Except.error StoreErr.outOfRange
      | some afile =>
        if afile ≠ "" then Except.ok afile else Except.error StoreErr.seqNotFound) = _
    rw [scanLines_indexContent es (fun e he => (hes e he).2.2)]
    have hscan := scanIndex_encoded s es none (fun e he => (hes e he).1)
    have hopt : optStr (none : Option String) = "" := rfl
    rw [hopt] at hscan
    rw [hscan]
    cases hspec : specFloorScan s none es with
    | none => simp [hspec, optStr]
    | some a =>
      have ha : a ≠ "" := by
        intro hempty
        exact specFloorScan_ne_some_empty s es none (by simp)
          (fun e he => (hes e he).2.1) (hempty ▸ hspec)
      simp [hspec, optStr, ha]

/-- Witness for C1: the spec's worked example — index entries
`[1001 → A, 2001 → B, 3001 → C]`, current segment starting at 5000 —
yields `lookup 1500 = A`, `lookup 2500 = B`, `lookup 3500 = C`,
`lookup 5000 = current`, `lookup 500 = ErrSeqNotFound`. -/
theorem getArchivedFileBySeq_floor_lookup_witness :
    GetArchivedFileBySeq exFS "datastore" "100/100" 1500 = .ok "A" ∧
    GetArchivedFileBySeq exFS "datastore" "100/100" 2500 = .ok "B" ∧
    GetArchivedFileBySeq exFS "datastore" "100/100" 3500 = .ok "C" ∧
    GetArchivedFileBySeq exFS "datastore" "100/100" 5000 =
      .ok (currentPath "datastore" "100/100") ∧
    GetArchivedFileBySeq exFS "datastore" "100/100" 500 = .error .seqNotFound := by
  have hgen := fun s => getArchivedFileBySeq_floor_lookup exFS "datastore" "100/100"
    s 5000 "x" "" [(1001, "A"), (2001, "B"), (3001, "C")]
    (by norm_num) (by decide) rfl rfl (by decide)
  exact ⟨hgen 1500, hgen 2500, hgen 3500, hgen 5000, hgen 500⟩

theorem getFirstSeqFromFile_error_eq (fs : FS) (file : String) (e : StoreErr)
    (h : getFirstSeqFromFile fs file = .error e) : e = .ioErr := by
  cases hr : fsRead fs file with
  | none =>
    simp only [getFirstSeqFromFile, hr] at h
    exact (Except.error.inj h).symm
  | some c =>
    cases hl : readFirstLine c with
    | none =>
      simp only [getFirstSeqFromFile, hr, hl] at h
      exact (Except.error.inj h).symm
    | some l =>
      simp only [getFirstSeqFromFile, hr, hl] at h
      exact absurd h (by simp)

/-- Claim C9: when the current segment is missing, empty, or its first line
is unreadable, `GetArchivedFileBySeq` returns that I/O error, and when the
first field does not parse as an unsigned integer it returns the parse
error — in each case without consulting the archive index (the statement
holds for every filesystem, in particular one whose index has a qualifying
entry); `ErrSeqNotFound` is only ever returned after the current segment's
first sequence was successfully read and parsed (and found to exceed the
request). -/
theorem getArchivedFileBySeq_error_paths
    (fs : FS) (datastore dstPath : String) (s : Nat) :
    (fsRead fs (currentPath datastore dstPath) = none →
      GetArchivedFileBySeq fs datastore dstPath s = .error .ioErr) ∧
    (∀ content, fsRead fs (currentPath datastore dstPath) = some content →
      readFirstLine content = none →
      GetArchivedFileBySeq fs datastore dstPath s = .error .ioErr) ∧
    (∀ str, getFirstSeqFromFile fs (currentPath datastore dstPath) = .ok str →
      parseUint64 str = none →
      GetArchivedFileBySeq fs datastore dstPath s = .error .parseErr) ∧
    (GetArchivedFileBySeq fs datastore dstPath s = .error .seqNotFound →
      ∃ str c, getFirstSeqFromFile fs (currentPath datastore dstPath) = .ok str ∧
        parseUint64 str = some c ∧ s < c) := by
  refine ⟨?_, ?_, ?_, ?_⟩
  · intro h
    simp only [GetArchivedFileBySeq, getFirstSeqFromFile, h]
  · intro content h hline
    simp only [GetArchivedFileBySeq, getFirstSeqFromFile, h, hline]
  · intro str h hparse
    simp only [GetArchivedFileBySeq, h, hparse]
  · intro h
    cases hf : getFirstSeqFromFile fs (currentPath datastore dstPath) with
    | error e =>
      simp only [GetArchivedFileBySeq, hf] at h
      have he : e = .seqNotFound := Except.error.inj h
      have := getFirstSeqFromFile_error_eq fs _ e hf
      rw [he] at this
      exact absurd this (by decide)
    | ok str =>
      simp only [GetArchivedFileBySeq, hf] at h
      cases hp : parseUint64 str with
      | none =>
        simp only [hp] at h
        exact absurd (Except.error.inj h) (by decide)
      | some c =>
        simp only [hp] at h
        by_cases hcs : c ≤ s
        · rw [if_pos hcs] at h
          exact absurd h (by simp)
        · exact ⟨str, c, rfl, hp, by omega⟩

/-- Witness for C9: a partition with a qualifying index entry but no
current segment errors; an empty current segment errors; a non-numeric
first field errors with the parse error; and the example state's
`ErrSeqNotFound` at 500 implies its current first sequence (5000) was read. -/
theorem getArchivedFileBySeq_error_paths_witness :
    GetArchivedFileBySeq [("d/p/archive.index", "1:A\n")] "d" "p" 5 =
      .error .ioErr ∧
    GetArchivedFileBySeq [("d/p/current.db", ""), ("d/p/archive.index", "1:A\n")]
      "d" "p" 5 = .error .ioErr ∧
    GetArchivedFileBySeq [("d/p/current.db", "x:y\n"), ("d/p/archive.index", "1:A\n")]
      "d" "p" 5 = .error .parseErr ∧
    (∃ str c, getFirstSeqFromFile exFS (currentPath "datastore" "100/100") = .ok str ∧
      parseUint64 str = some c ∧ 500 < c) :=
  ⟨(getArchivedFileBySeq_error_paths _ "d" "p" 5).1 rfl,
   (getArchivedFileBySeq_error_paths _ "d" "p" 5).2.1 "" rfl rfl,
   (getArchivedFileBySeq_error_paths _ "d" "p" 5).2.2.1 "x" rfl rfl,
   (getArchivedFileBySeq_error_paths exFS "datastore" "100/100" 500).2.2.2 rfl⟩

theorem splitN2_colon_free_head (fq path : String) (hcolon : (':' : Char) ∉ fq.data) :
    splitN2 (fq ++ ":" ++ path) ':' = [fq, path] := by
  have hdata : (fq ++ ":" ++ path).data = fq.data ++ ':' :: path.data := by
    simp [data_append]
  have := splitN2_of_data (fq ++ ":" ++ path) ':' fq.data path.data hdata hcolon
  rw [this]

/-- Claim C7: on a job `"<fq>:<path>"` whose segment file exists, the
handler reads it, uploads its bytes under `<category>/<path>` with the
public-read ACL, appends `"<fq>:<url>"` to `archive.index` in the segment's
directory, deletes the segment, and only then acks; a failing upload, index
append, or deletion naks instead (never acks), and a failure before the
index append (upload failure, or a read error that is not not-exist) leaves
the filesystem — in particular the index — unchanged. -/
theorem msgHandler_pipeline (st : UploaderSt) (cfg : UploaderCfg)
    (fq path data : String)
    (hcolon : (':' : Char) ∉ fq.data)
    (hfile : fsRead st.fs path = some data) :
    (msgHandler ⟨false, false, false, false⟩ cfg st (fq ++ ":" ++ path) =
      some (⟨fsRemove
              (updateIndex st.fs path
                ("https://" ++ cfg.bucketName ++ "/" ++ (cfg.bucketCategory ++ "/" ++ path))
                fq) path,
             st.bucket ++ [⟨cfg.bucketCategory ++ "/" ++ path, data, true⟩]⟩, .ack)) ∧
    (msgHandler ⟨false, true, false, false⟩ cfg st (fq ++ ":" ++ path) =
      some (st, .nak)) ∧
    (msgHandler ⟨false, false, true, false⟩ cfg st (fq ++ ":" ++ path) =
      some (⟨st.fs, st.bucket ++ [⟨cfg.bucketCategory ++ "/" ++ path, data, true⟩]⟩,
            .nak)) ∧
    (msgHandler ⟨false, false, false, true⟩ cfg st (fq ++ ":" ++ path) =
      some (⟨updateIndex st.fs path
              ("https://" ++ cfg.bucketName ++ "/" ++ (cfg.bucketCategory ++ "/" ++ path))
              fq,
             st.bucket ++ [⟨cfg.bucketCategory ++ "/" ++ path, data, true⟩]⟩, .nak)) := by
  have hsplit := splitN2_colon_free_head fq path hcolon
  refine ⟨?_, ?_, ?_, ?_⟩
  · simp only [msgHandler, hsplit, List.get?, List.headD, hfile, saveFile]
    rfl
  · simp only [msgHandler, hsplit, List.get?, List.headD, hfile, saveFile]
    rfl
  · simp only [msgHandler, hsplit, List.get?, List.headD, hfile, saveFile]
    rfl
  · simp only [msgHandler, hsplit, List.get?, List.headD, hfile, saveFile]
    rfl

/-- Witness for C7: the concrete segment `d/p/MSG_5.db` with content
`"5:x\n"` is uploaded to `cat/d/p/MSG_5.db` on bucket `bkt`, indexed in
`d/p/archive.index`, deleted, and acked; each injected failure naks. -/
theorem msgHandler_pipeline_witness :
    msgHandler ⟨false, false, false, false⟩ exCfg exUpSt exJob =
      some (⟨[("d/p/archive.index", exLine ++ "\n")],
             [⟨"cat/d/p/MSG_5.db", "5:x\n", true⟩]⟩, .ack) ∧
    msgHandler ⟨false, true, false, false⟩ exCfg exUpSt exJob = some (exUpSt, .nak) ∧
    msgHandler ⟨false, false, true, false⟩ exCfg exUpSt exJob =
      some (⟨exUpSt.fs, [⟨"cat/d/p/MSG_5.db", "5:x\n", true⟩]⟩, .nak) := by
  have h := msgHandler_pipeline exUpSt exCfg "5" "d/p/MSG_5.db" "5:x\n"
    (by decide) rfl
  exact ⟨h.1, h.2.1, h.2.2.1⟩

/-- Claim C10: when the segment file named in the job does not exist (for
example on a redelivery after a successful earlier run already deleted it),
the handler acks immediately with no upload and no index append — the state
is returned untouched, whatever the failure environment; only a read error
other than not-found naks. -/
theorem msgHandler_missing_file (st : UploaderSt) (cfg : UploaderCfg)
    (fq path : String) (hcolon : (':' : Char) ∉ fq.data) :
    (fsRead st.fs path = none →
      ∀ env : FailEnv, msgHandler env cfg st (fq ++ ":" ++ path) = some (st, .ack)) ∧
    (∀ data, fsRead st.fs path = some data →
      ∀ env : FailEnv, env.readFails = true →
        msgHandler env cfg st (fq ++ ":" ++ path) = some (st, .nak)) := by
  have hsplit := splitN2_colon_free_head fq path hcolon
  constructor
  · intro h env
    simp only [msgHandler, hsplit, List.get?, h]
  · intro data h env hrf
    simp only [msgHandler, hsplit, List.get?, h, hrf]
    rfl

/-- Witness for C10: a redelivered job whose segment is already gone is
acked with the state untouched; an injected non-not-found read error on an
existing segment naks. -/
theorem msgHandler_missing_file_witness :
    msgHandler envOk exCfg ⟨[("d/p/archive.index", "x")], []⟩ exJob =
      some (⟨[("d/p/archive.index", "x")], []⟩, .ack) ∧
    msgHandler ⟨true, false, false, false⟩ exCfg exUpSt exJob =
      some (exUpSt, .nak) :=
  ⟨(msgHandler_missing_file ⟨[("d/p/archive.index", "x")], []⟩ exCfg "5" "d/p/MSG_5.db"
      (by decide)).1 rfl envOk,
   (msgHandler_missing_file exUpSt exCfg "5" "d/p/MSG_5.db" (by decide)).2
     "5:x\n" rfl ⟨true, false, false, false⟩ rfl⟩

theorem msgStore_fast (sr : StorerSt) (ds dp : String) (s : Nat) (p : String)
    (h : sr.counter < 100) :
    msgStore sr ds dp s p =
      .ok ({ sr with
             counter := sr.counter + 1
             fs := fsAppend sr.fs (currentPath ds dp) (encodeRecord s p) },
           currentPath ds dp) := by
  unfold msgStore
  rw [if_pos h]

theorem mk_data (s : String) : String.mk s.data = s := rfl

theorem empty_append_str (s : String) : "" ++ s = s := by
  rw [string_eq_iff_data]
  simp [data_append]

/-- Claim C6: starting from a fresh partition, sequentially appending
`(s1,p1)`, `(s2,p2)`, `(s3,p3)` with `s1 < s2 < s3` and no rotation
triggered (the shared counter stays below the check interval) leaves the
current segment containing exactly the lines `s1:p1`, `s2:p2`, `s3:p3` in
that order, publishes nothing, and splitting each line on its first colon
recovers the original sequence and payload (encode-then-decode is the
identity, for newline-free payloads). -/
theorem msgStore_append_order
    (sr : StorerSt) (ds dp : String) (s1 s2 s3 : Nat) (p1 p2 p3 : String)
    (hcnt : sr.counter + 2 < 100)
    (hfresh : fsRead sr.fs (currentPath ds dp) = none)
    (hord1 : s1 < s2) (hord2 : s2 < s3)
    (hs1 : s1 < 2 ^ 64) (hs2 : s2 < 2 ^ 64) (hs3 : s3 < 2 ^ 64)
    (hp1 : ('\n' : Char) ∉ p1.data) (hp2 : ('\n' : Char) ∉ p2.data)
    (hp3 : ('\n' : Char) ∉ p3.data) :
    ∃ sr1 sr2 sr3 : StorerSt,
      msgStore sr ds dp s1 p1 = .ok (sr1, currentPath ds dp) ∧
      msgStore sr1 ds dp s2 p2 = .ok (sr2, currentPath ds dp) ∧
      msgStore sr2 ds dp s3 p3 = .ok (sr3, currentPath ds dp) ∧
      sr3.jobs = sr.jobs ∧
      scanLines ((fsRead sr3.fs (currentPath ds dp)).getD "") =
        [natRepr s1 ++ ":" ++ p1, natRepr s2 ++ ":" ++ p2,
         natRepr s3 ++ ":" ++ p3] ∧
      splitN2 (natRepr s1 ++ ":" ++ p1) ':' = [natRepr s1, p1] ∧
      splitN2 (natRepr s2 ++ ":" ++ p2) ':' = [natRepr s2, p2] ∧
      splitN2 (natRepr s3 ++ ":" ++ p3) ':' = [natRepr s3, p3] ∧
      parseUint64 (natRepr s1) = some s1 ∧
      parseUint64 (natRepr s2) = some s2 ∧
      parseUint64 (natRepr s3) = some s3 := by
  set cur := currentPath ds dp with hcur
  set r1 := encodeRecord s1 p1 with hr1
  set r2 := encodeRecord s2 p2 with hr2
  set r3 := encodeRecord s3 p3 with hr3
  refine ⟨_, _, _, msgStore_fast sr ds dp s1 p1 (by omega),
    msgStore_fast _ ds dp s2 p2 (by simpa using by omega),
    msgStore_fast _ ds dp s3 p3 (by simpa using by omega), rfl, ?_, ?_, ?_, ?_, ?_, ?_, ?_⟩
  · have h1 : fsRead (fsAppend sr.fs cur r1) cur = some r1 := by
      rw [fsRead_fsAppend_self, hfresh]
      rw [Option.getD_none, empty_append_str]
    have h2 : fsRead (fsAppend (fsAppend sr.fs cur r1) cur r2) cur =
        some (r1 ++ r2) := by
      rw [fsRead_fsAppend_self, h1]
      rfl
    have h3 : fsRead (fsAppend (fsAppend (fsAppend sr.fs cur r1) cur r2) cur r3) cur =
        some (r1 ++ r2 ++ r3) := by
      rw [fsRead_fsAppend_self, h2]
      rfl
    show scanLines ((fsRead (fsAppend (fsAppend (fsAppend sr.fs cur r1) cur r2) cur r3)
      cur).getD "") = _
    rw [h3]
    show scanLines (r1 ++ r2 ++ r3) = _
    unfold scanLines
    have hdata : (r1 ++ r2 ++ r3).data =
        ([(natRepr s1 ++ ":" ++ p1).data, (natRepr s2 ++ ":" ++ p2).data,
          (natRepr s3 ++ ":" ++ p3).data].foldr (fun l acc => l ++ '\n' :: acc) []) := by
      simp [hr1, hr2, hr3, encodeRecord, data_append]
    rw [hdata, scanLinesAux_lines _ ?hnl]
    case hnl =>
      intro l hl
      simp only [List.mem_cons, List.not_mem_nil, or_false] at hl
      rcases hl with hl | hl | hl <;>
        exact hl ▸ no_newline_indexLine _ _ (by assumption)
    simp only [List.map_cons, List.map_nil, mk_data]
  · exact splitN2_indexLine s1 p1
  · exact splitN2_indexLine s2 p2
  · exact splitN2_indexLine s3 p3
  · exact parseUint64_natRepr s1 hs1
  · exact parseUint64_natRepr s2 hs2
  · exact parseUint64_natRepr s3 hs3

/-- Witness for C6: appending `(1,"a")`, `(2,"b")`, `(3,"c")` to a fresh
storer leaves `current.db` with the three lines in order, each splitting
back to its sequence and payload. -/
theorem msgStore_append_order_witness :
    ∃ sr1 sr2 sr3 : StorerSt,
      msgStore ⟨0, [], []⟩ "datastore" "100/100" 1 "a" =
        .ok (sr1, currentPath "datastore" "100/100") ∧
      msgStore sr1 "datastore" "100/100" 2 "b" =
        .ok (sr2, currentPath "datastore" "100/100") ∧
      msgStore sr2 "datastore" "100/100" 3 "c" =
        .ok (sr3, currentPath "datastore" "100/100") ∧
      sr3.jobs = [] ∧
      scanLines ((fsRead sr3.fs (currentPath "datastore" "100/100")).getD "") =
        [natRepr 1 ++ ":" ++ "a", natRepr 2 ++ ":" ++ "b", natRepr 3 ++ ":" ++ "c"] ∧
      splitN2 (natRepr 1 ++ ":" ++ "a") ':' = [natRepr 1, "a"] ∧
      splitN2 (natRepr 2 ++ ":" ++ "b") ':' = [natRepr 2, "b"] ∧
      splitN2 (natRepr 3 ++ ":" ++ "c") ':' = [natRepr 3, "c"] ∧
      parseUint64 (natRepr 1) = some 1 ∧
      parseUint64 (natRepr 2) = some 2 ∧
      parseUint64 (natRepr 3) = some 3 :=
  msgStore_append_order ⟨0, [], []⟩ "datastore" "100/100" 1 2 3 "a" "b" "c"
    (by norm_num) rfl (by norm_num) (by norm_num) (by norm_num) (by norm_num)
    (by norm_num) (by decide) (by decide) (by decide)

theorem getFirstSeq_str (fs : FS) (file : String) (fq r rest : String)
    (hread : fsRead fs file = some (fq ++ ":" ++ r ++ "\n" ++ rest))
    (hq1 : (':' : Char) ∉ fq.data) (hq2 : ('\n' : Char) ∉ fq.data)
    (hr : ('\n' : Char) ∉ r.data) :
    getFirstSeqFromFile fs file = .ok fq := by
  have hAn : ('\n' : Char) ∉ (fq ++ ":" ++ r).data := by
    have hd : (fq ++ ":" ++ r).data = fq.data ++ ':' :: r.data := by
      simp [data_append]
    rw [hd]
    intro hmem
    rcases List.mem_append.mp hmem with hmem | hmem
    · exact hq2 hmem
    · rcases List.mem_cons.mp hmem with hmem | hmem
      · exact absurd hmem (by decide)
      · exact hr hmem
  have hsplit : splitN2 (fq ++ ":" ++ r ++ "\n") ':' = [fq, r ++ "\n"] := by
    apply splitN2_of_data _ _ fq.data (r ++ "\n").data _ hq1
    simp [data_append]
  simp only [getFirstSeqFromFile, hread]
  rw [readFirstLine_append _ _ hAn]
  simp only [hsplit]
  rfl

theorem current_ne_archive (fq : String) :
    ("current.db" : String) ≠ "MSG_" ++ fq ++ ".db" := by
  intro hcontra
  rw [string_eq_iff_data] at hcontra
  simp [data_append] at hcontra

theorem msgStore_rotation_eq
    (sr : StorerSt) (ds dp : String) (s : Nat) (p : String) (fq r rest : String)
    (hc : 100 ≤ sr.counter)
    (hread : fsRead sr.fs (currentPath ds dp) = some (fq ++ ":" ++ r ++ "\n" ++ rest))
    (hsize : goFileSize ≤ (fq ++ ":" ++ r ++ "\n" ++ rest).length)
    (hq1 : (':' : Char) ∉ fq.data) (hq2 : ('\n' : Char) ∉ fq.data)
    (hr : ('\n' : Char) ∉ r.data) :
    msgStore sr ds dp s p =
      .ok (⟨1,
            fsAppend
              (fsWrite (fsRemove sr.fs (currentPath ds dp))
                (joinPath (joinPath ds dp) ("MSG_" ++ fq ++ ".db"))
                (fq ++ ":" ++ r ++ "\n" ++ rest))
              (currentPath ds dp) (encodeRecord s p),
            sr.jobs ++
              [⟨fq ++ ":" ++ joinPath (joinPath ds dp) ("MSG_" ++ fq ++ ".db"),
                fq ++ ":" ++ joinPath (joinPath ds dp) ("MSG_" ++ fq ++ ".db")⟩]⟩,
           currentPath ds dp) := by
  have h100 : ¬ sr.counter < 100 := by omega
  have hdir : dirPath (currentPath ds dp) = joinPath ds dp := by
    unfold currentPath
    exact dirPath_joinPath _ _ (by decide)
  have hfirst : getFirstSeqFromFile sr.fs (currentPath ds dp) = .ok fq :=
    getFirstSeq_str _ _ _ _ _ hread hq1 hq2 hr
  have harch : archiveFile { sr with counter := 0 } (currentPath ds dp) =
      .ok ⟨0,
           fsWrite (fsRemove sr.fs (currentPath ds dp))
             (joinPath (joinPath ds dp) ("MSG_" ++ fq ++ ".db"))
             (fq ++ ":" ++ r ++ "\n" ++ rest),
           sr.jobs ++
             [⟨fq ++ ":" ++ joinPath (joinPath ds dp) ("MSG_" ++ fq ++ ".db"),
               fq ++ ":" ++ joinPath (joinPath ds dp) ("MSG_" ++ fq ++ ".db")⟩]⟩ := by
    simp only [archiveFile, hfirst, hdir, fsRename, hread, Option.map]
  simp only [msgStore, if_neg h100, hread, Option.getD_some, if_pos hsize, harch]

/-- Claim C3: on a call where the interval check fires (shared counter at
the interval) and the current segment is at least 1 MiB, `MsgStore` renames
the segment to `MSG_<fq>.db` beside it (`fq` being the first sequence read
from the segment's first line), publishes exactly one archival job whose
payload is `"<fq>:<archive-path>"` and whose message id equals that payload,
then writes the incoming record into a fresh current segment at the same
`current.db` path — one rotation and one published job per call. -/
theorem msgStore_rotation_publishes
    (sr : StorerSt) (ds dp : String) (s : Nat) (p : String) (fq r rest : String)
    (hc : 100 ≤ sr.counter)
    (hread : fsRead sr.fs (currentPath ds dp) = some (fq ++ ":" ++ r ++ "\n" ++ rest))
    (hsize : goFileSize ≤ (fq ++ ":" ++ r ++ "\n" ++ rest).length)
    (hq1 : (':' : Char) ∉ fq.data) (hq2 : ('\n' : Char) ∉ fq.data)
    (hr : ('\n' : Char) ∉ r.data) :
    ∃ sr' : StorerSt,
      msgStore sr ds dp s p = .ok (sr', currentPath ds dp) ∧
      fsRead sr'.fs (joinPath (joinPath ds dp) ("MSG_" ++ fq ++ ".db")) =
        some (fq ++ ":" ++ r ++ "\n" ++ rest) ∧
      fsRead sr'.fs (currentPath ds dp) = some (encodeRecord s p) ∧
      sr'.jobs = sr.jobs ++
        [⟨fq ++ ":" ++ joinPath (joinPath ds dp) ("MSG_" ++ fq ++ ".db"),
          fq ++ ":" ++ joinPath (joinPath ds dp) ("MSG_" ++ fq ++ ".db")⟩] ∧
      sr'.counter = 1 := by
  have hne : currentPath ds dp ≠ joinPath (joinPath ds dp) ("MSG_" ++ fq ++ ".db") := by
    unfold currentPath
    exact joinPath_ne_of_ne _ _ _ (current_ne_archive fq)
  refine ⟨_, msgStore_rotation_eq sr ds dp s p fq r rest hc hread hsize hq1 hq2 hr,
    ?_, ?_, rfl, rfl⟩
  · show fsRead (fsAppend _ (currentPath ds dp) _)
      (joinPath (joinPath ds dp) ("MSG_" ++ fq ++ ".db")) = _
    rw [fsRead_fsAppend_ne _ _ _ _ (Ne.symm hne)]
    exact fsRead_fsWrite_self _ _ _
  · show fsRead (fsAppend _ (currentPath ds dp) _) (currentPath ds dp) = _
    rw [fsRead_fsAppend_self, fsRead_fsWrite_ne _ _ _ _ hne, fsRead_fsRemove_self]
    rw [Option.getD_none, empty_append_str]

theorem bigSt_read : fsRead bigSt.fs (currentPath "datastore" "100/100") =
    some ("7" ++ ":" ++ bigMid ++ "\n" ++ "") := rfl

theorem bigMid_length : bigMid.data.length = 1048574 := List.length_replicate _ _

theorem bigContent_big : goFileSize ≤ ("7" ++ ":" ++ bigMid ++ "\n" ++ "").length := by
  show goFileSize ≤ ("7" ++ ":" ++ bigMid ++ "\n" ++ "").data.length
  simp only [data_append, List.length_append, bigMid_length]
  norm_num [goFileSize]

theorem bigMid_no_newline : ('\n' : Char) ∉ bigMid.data := by
  show ('\n' : Char) ∉ List.replicate 1048574 'a'
  intro hmem
  have := (List.mem_replicate.mp hmem).2
  exact absurd this (by decide)

/-- Witness for C3: a storer whose counter sits at the interval and whose
`100/100` segment holds 1048577 bytes starting `7:` rotates to `MSG_7.db`,
publishes the one job `"7:datastore/100/100/MSG_7.db"` (message id equal to
it), and starts the fresh segment with the incoming record `8:z`. -/
theorem msgStore_rotation_publishes_witness :
    ∃ sr' : StorerSt,
      msgStore bigSt "datastore" "100/100" 8 "z" =
        .ok (sr', currentPath "datastore" "100/100") ∧
      fsRead sr'.fs (joinPath (joinPath "datastore" "100/100") ("MSG_" ++ "7" ++ ".db")) =
        some ("7" ++ ":" ++ bigMid ++ "\n" ++ "") ∧
      fsRead sr'.fs (currentPath "datastore" "100/100") = some (encodeRecord 8 "z") ∧
      sr'.jobs = [] ++
        [⟨"7" ++ ":" ++ joinPath (joinPath "datastore" "100/100") ("MSG_" ++ "7" ++ ".db"),
          "7" ++ ":" ++ joinPath (joinPath "datastore" "100/100") ("MSG_" ++ "7" ++ ".db")⟩] ∧
      sr'.counter = 1 :=
  msgStore_rotation_publishes bigSt "datastore" "100/100" 8 "z" "7" bigMid ""
    (by decide) bigSt_read bigContent_big (by decide) (by decide) bigMid_no_newline

theorem archiveFile_ok_shape (sr : StorerSt) (filename : String) (sr1 : StorerSt)
    (h : archiveFile sr filename = .ok sr1) :
    sr1.counter = sr.counter ∧ ∃ j, sr1.jobs = sr.jobs ++ [j] := by
  cases hf : getFirstSeqFromFile sr.fs filename with
  | error e =>
    simp only [archiveFile, hf] at h
    exact absurd h (by simp)
  | ok seqStr =>
    simp only [archiveFile, hf] at h
    cases hren : fsRename sr.fs filename
      (joinPath (dirPath filename) ("MSG_" ++ seqStr ++ ".db")) with
    | none =>
      simp only [hren] at h
      exact absurd h (by simp)
    | some fs1 =>
      simp only [hren] at h
      have hinj := Except.ok.inj h
      rw [← hinj]
      exact ⟨rfl, _, rfl⟩

/-- Claim C4 (amended): the rotation-check counter is one field of the
storer shared by every partition (`msgStore` touches the same counter
whatever `dstPath` is).  A call finding the counter below 100 just
increments it and appends — no stat, no rotation, no published job,
whatever the segment's size.  A call finding the counter at (or beyond) the
interval resets it to 0 before statting: if the segment is under the
threshold the call completes with the counter at 0 and still publishes
nothing; if it is at or above the threshold the call rotates, publishes
exactly one job, and — re-entering the append loop — completes with the
counter at 1, not 0. -/
theorem msgStore_counter_dynamics
    (sr : StorerSt) (ds dp : String) (s : Nat) (p : String) :
    (sr.counter < 100 →
      msgStore sr ds dp s p =
        .ok ({ sr with
               counter := sr.counter + 1
               fs := fsAppend sr.fs (currentPath ds dp) (encodeRecord s p) },
             currentPath ds dp)) ∧
    (100 ≤ sr.counter →
      ((fsRead sr.fs (currentPath ds dp)).getD "").length < goFileSize →
      msgStore sr ds dp s p =
        .ok ({ sr with
               counter := 0
               fs := fsAppend sr.fs (currentPath ds dp) (encodeRecord s p) },
             currentPath ds dp)) ∧
    (100 ≤ sr.counter →
      goFileSize ≤ ((fsRead sr.fs (currentPath ds dp)).getD "").length →
      ∀ (sr' : StorerSt) (f : String), msgStore sr ds dp s p = .ok (sr', f) →
        sr'.counter = 1 ∧ sr'.jobs.length = sr.jobs.length + 1) := by
  refine ⟨fun h => msgStore_fast sr ds dp s p h, ?_, ?_⟩
  · intro h100 hlt
    have hn : ¬ sr.counter < 100 := by omega
    have hns : ¬ goFileSize ≤ ((fsRead sr.fs (currentPath ds dp)).getD "").length := by
      omega
    simp only [msgStore, if_neg hn, if_neg hns]
  · intro h100 hsz sr' f hok
    have hn : ¬ sr.counter < 100 := by omega
    simp only [msgStore, if_neg hn, if_pos hsz] at hok
    cases harc : archiveFile { sr with counter := 0 } (currentPath ds dp) with
    | error e =>
      simp only [harc] at hok
      exact absurd hok (by simp)
    | ok sr1 =>
      simp only [harc] at hok
      obtain ⟨hcnt, j, hjobs⟩ :=
        archiveFile_ok_shape { sr with counter := 0 } (currentPath ds dp) sr1 harc
      have hsr' : sr' = { sr1 with
          counter := sr1.counter + 1
          fs := fsAppend sr1.fs (currentPath ds dp) (encodeRecord s p) } :=
        (congrArg Prod.fst (Except.ok.inj hok)).symm
      rw [hsr']
      constructor
      · show sr1.counter + 1 = 1
        rw [hcnt]
      · show sr1.jobs.length = sr.jobs.length + 1
        rw [hjobs, List.length_append]
        rfl

/-- Counterexample for C4 as stated: a check call that rotates does not
leave the counter at 0 — the oversized segment at counter 100 rotates and
the call completes with the counter at 1. -/
theorem msgStore_check_call_counter_not_reset :
    (msgStore bigSt "datastore" "100/100" 8 "z").map (fun res => res.1.counter) =
      .ok 1 ∧ (1 : Nat) ≠ 0 := by
  have h := msgStore_rotation_eq bigSt "datastore" "100/100" 8 "z" "7" bigMid ""
    (by decide) bigSt_read bigContent_big (by decide) (by decide) bigMid_no_newline
  rw [h]
  exact ⟨rfl, by decide⟩

/-- Witness for C4 (amended): a fresh storer at counter 0 increments to 1
on an append to one partition, and incrementing happens on the same shared
field for a different partition; a counter-100 call over a small segment
completes with the counter reset to 0. -/
theorem msgStore_counter_dynamics_witness :
    msgStore ⟨0, [], []⟩ "datastore" "100/100" 1 "a" =
      .ok ({ counter := 1,
             fs := fsAppend [] (currentPath "datastore" "100/100") (encodeRecord 1 "a"),
             jobs := [] }, currentPath "datastore" "100/100") ∧
    msgStore ⟨7, [], []⟩ "datastore" "200/200" 1 "a" =
      .ok ({ counter := 8,
             fs := fsAppend [] (currentPath "datastore" "200/200") (encodeRecord 1 "a"),
             jobs := [] }, currentPath "datastore" "200/200") ∧
    msgStore ⟨100, [("datastore/100/100/current.db", "1:a\n")], []⟩
        "datastore" "100/100" 2 "b" =
      .ok ({ counter := 0,
             fs := fsAppend [("datastore/100/100/current.db", "1:a\n")]
               (currentPath "datastore" "100/100") (encodeRecord 2 "b"),
             jobs := [] }, currentPath "datastore" "100/100") ∧
    (∃ (sr' : StorerSt) (f : String),
      msgStore bigSt "datastore" "100/100" 8 "z" = .ok (sr', f) ∧
      sr'.counter = 1 ∧ sr'.jobs.length = bigSt.jobs.length + 1) := by
  have hrot := msgStore_rotation_eq bigSt "datastore" "100/100" 8 "z" "7" bigMid ""
    (by decide) bigSt_read bigContent_big (by decide) (by decide) bigMid_no_newline
  have hsz : goFileSize ≤
      ((fsRead bigSt.fs (currentPath "datastore" "100/100")).getD "").length := by
    rw [bigSt_read]
    exact bigContent_big
  refine ⟨(msgStore_counter_dynamics ⟨0, [], []⟩ "datastore" "100/100" 1 "a").1
      (by norm_num),
    (msgStore_counter_dynamics ⟨7, [], []⟩ "datastore" "200/200" 1 "a").1 (by norm_num),
    (msgStore_counter_dynamics ⟨100, [("datastore/100/100/current.db", "1:a\n")], []⟩
      "datastore" "100/100" 2 "b").2.1 (by norm_num) (by decide),
    _, _, hrot,
    (msgStore_counter_dynamics bigSt "datastore" "100/100" 8 "z").2.2
      (by decide) hsz _ _ hrot⟩

/-- Counterexample for C8 as stated: invoking the handler twice for the
same fully-succeeding job does not leave two index lines — the second
delivery finds the segment already deleted, skips, and acks, so the index
holds the line exactly once. -/
theorem msgHandler_twice_single_line :
    (msgHandlerTwice envOk envOk exCfg exUpSt exJob).map
      (fun res => (scanLines ((fsRead res.1.fs "d/p/archive.index").getD ""), res.2)) =
      some ([exLine], .ack) ∧
    ([exLine] : List String) ≠ [exLine, exLine] := by
  exact ⟨rfl, by simp⟩

/-- Claim C8 (amended): invoking the archival handler twice for the same
job leaves the partition's `archive.index` with two duplicate lines when
the first invocation appended its line but failed to delete the segment
(so the naked job was redelivered with the file still present); a first
invocation that fully succeeded is instead skipped on redelivery, leaving
one line.  In either case the floor-lookup scan over an index with a line
duplicated returns exactly what it returns with the line present once —
the last qualifying entry wins, so duplicates are harmless. -/
theorem msgHandler_redelivery_duplicates_harmless :
    ((msgHandlerTwice envRemoveFails envOk exCfg exUpSt exJob).map
      (fun res => (scanLines ((fsRead res.1.fs "d/p/archive.index").getD ""), res.2)) =
      some ([exLine, exLine], .ack)) ∧
    (∀ (s : Nat) (pre post : List String) (l afile : String),
      scanIndex s (pre ++ l :: l :: post) afile =
        scanIndex s (pre ++ l :: post) afile) :=
  ⟨rfl, fun s pre post l afile => scanIndex_dup s pre l post afile⟩

theorem ite_lt_eq_max (a b : Int) : (if b < a then a else b) = max a b := by
  rcases le_or_lt a b with h | h
  · rw [if_neg (not_lt.mpr h), max_eq_right h]
  · rw [if_pos h, max_eq_left h.le]

theorem specBase_pos (aw : Int) : 0 < specBase aw :=
  lt_of_lt_of_le (by norm_num) (le_max_left _ _)

theorem specDelay_pos (aw : Int) (nd : Nat) (hcap : aw - 1000000000 < 2 ^ 63) :
    0 < specDelay aw nd := by
  unfold specDelay
  have hppos : 0 < specBase aw * 2 ^ (max 1 nd - 1) := by
    have := specBase_pos aw
    positivity
  rcases le_or_lt (aw - 1000000000) 0 with h | h
  · rw [if_pos h]
    exact lt_min hppos (specBase_pos aw)
  · rw [if_neg (not_le.mpr h)]
    exact lt_min hppos h

theorem specDelay_pos_of (aw : Int) (nd : Nat) (h1 : aw < 2 ^ 63) :
    0 < specDelay aw nd := specDelay_pos aw nd (by omega)

theorem attempt_eq (nd : Nat) (hnd : (nd : Int) < 2 ^ 63) :
    (if 0 < nd then wrap64 (nd : Int) else 1) = ((max 1 nd : Nat) : Int) := by
  by_cases h : 0 < nd
  · rw [if_pos h, wrap64_eq_of _ (by omega) hnd]
    have hm : max 1 nd = nd := by omega
    rw [hm]
  · rw [if_neg h]
    have h0 : nd = 0 := by omega
    subst h0
    rfl

theorem ackWait_pos_id (aw : Int) (h0 : 0 < aw) :
    (if aw ≤ 0 then (30000000000 : Int) else aw) = aw := if_neg (by omega)

theorem wrap64_sub_second (aw : Int) (h0 : 0 < aw) (h1 : aw < 2 ^ 63) :
    wrap64 (aw - 1000000000) = aw - 1000000000 :=
  wrap64_eq_of _ (by omega) (by omega)

theorem toNat_cast_max_sub_one (nd : Nat) :
    (((max 1 nd : Nat) : Int) - 1).toNat = max 1 nd - 1 := by
  have hmax1 : (1 : Nat) ≤ max 1 nd := le_max_left _ _
  omega

theorem cast_max_sub_one_not_neg (nd : Nat) :
    ¬ (((max 1 nd : Nat) : Int) - 1 < 0) := by
  have hmax1 : (1 : Nat) ≤ max 1 nd := le_max_left _ _
  omega

theorem add_pos_not_nonpos (a b : Int) (ha : 0 < a) (hb : 0 ≤ b) :
    ¬ a + b ≤ 0 := by omega

theorem add_pos_lower (a b : Int) (ha : 0 < a) (hb : 0 ≤ b) :
    -(2 ^ 63) ≤ a + b := by omega

theorem pow_lt_63 (s : Nat) (h : (2 : Int) ^ s < 2 ^ 63) : s < 63 := by
  by_contra hcon
  have h63 : (2 : Int) ^ 63 ≤ 2 ^ s :=
    pow_le_pow_right (by norm_num) (by omega)
  omega

theorem goShlOne_eq (s : Nat) (h : (2 : Int) ^ s < 2 ^ 63) :
    goShlOne s = 2 ^ s := by
  have hs : s < 63 := pow_lt_63 s h
  unfold goShlOne
  rw [if_neg (by omega : ¬ 64 ≤ s)]
  exact wrap64_eq_of _
    (le_trans (by norm_num : -(2 ^ 63 : Int) ≤ 0) (pow_nonneg (by norm_num) s)) h

theorem specBase_mul_pow_nonneg (aw : Int) (s : Nat) :
    0 ≤ specBase aw * 2 ^ s := by
  have h := specBase_pos aw
  positivity

theorem pow_lt_of_mul_specBase (aw : Int) (s : Nat)
    (h : specBase aw * 2 ^ s < 2 ^ 63) : (2 : Int) ^ s < 2 ^ 63 := by
  have hb1 : (1 : Int) ≤ specBase aw := le_trans (by norm_num) (le_max_left _ _)
  calc (2 : Int) ^ s = 1 * 2 ^ s := by ring
    _ ≤ specBase aw * 2 ^ s := by
        apply mul_le_mul_of_nonneg_right hb1
        positivity
    _ < 2 ^ 63 := h

theorem nakDelay_no_overflow (aw : Int) (nd : Nat) (j : Int)
    (haw0 : 0 < aw) (haw1 : aw < 2 ^ 63) (hnd : (nd : Int) < 2 ^ 63)
    (hpow : specBase aw * 2 ^ (max 1 nd - 1) < 2 ^ 63)
    (hj0 : 0 ≤ j) (hsum : specDelay aw nd + j < 2 ^ 63) :
    nakDelay aw nd j = some (specDelay aw nd + j) ∧
      nakJitterRange aw nd = max 1000000 (Int.tdiv (specDelay aw nd) 5) := by
  have hdelay :
      (if (if aw - 1000000000 ≤ 0 then specBase aw else aw - 1000000000) <
          specBase aw * 2 ^ (max 1 nd - 1)
        then (if aw - 1000000000 ≤ 0 then specBase aw else aw - 1000000000)
        else specBase aw * 2 ^ (max 1 nd - 1)) = specDelay aw nd := by
    simp only [specDelay]
    rcases le_or_lt (aw - 1000000000) 0 with hcap | hcap
    · rw [if_pos hcap, if_pos hcap]
      by_cases h : specBase aw < specBase aw * 2 ^ (max 1 nd - 1)
      · rw [if_pos h, min_eq_right h.le]
      · rw [if_neg h, min_eq_left (not_lt.mp h)]
    · rw [if_neg (not_le.mpr hcap), if_neg (not_le.mpr hcap)]
      by_cases h : aw - 1000000000 < specBase aw * 2 ^ (max 1 nd - 1)
      · rw [if_pos h, min_eq_right h.le]
      · rw [if_neg h, min_eq_left (not_lt.mp h)]
  have hdpos : 0 < specDelay aw nd := specDelay_pos_of aw nd haw1
  have hF : wrap64 (specDelay aw nd + j) = specDelay aw nd + j :=
    wrap64_eq_of _ (add_pos_lower _ _ hdpos hj0) hsum
  have hd0 : wrap64 (specBase aw * 2 ^ (max 1 nd - 1)) =
      specBase aw * 2 ^ (max 1 nd - 1) :=
    wrap64_eq_of _
      (le_trans (by norm_num : -(2 ^ 63 : Int) ≤ 0) (specBase_mul_pow_nonneg aw _)) hpow
  have hbaseFold : max (1000000000 : Int) (Int.tdiv aw 4) = specBase aw := rfl
  constructor
  · simp only [nakDelay, attempt_eq nd hnd, ackWait_pos_id aw haw0, ite_lt_eq_max,
      hbaseFold, wrap64_sub_second aw haw0 haw1, toNat_cast_max_sub_one nd,
      goShlOne_eq _ (pow_lt_of_mul_specBase aw _ hpow), hd0, hdelay, hF]
    rw [if_neg (cast_max_sub_one_not_neg nd),
      if_neg (add_pos_not_nonpos _ _ hdpos hj0)]
  · simp only [nakJitterRange, attempt_eq nd hnd, ackWait_pos_id aw haw0, ite_lt_eq_max,
      hbaseFold, wrap64_sub_second aw haw0 haw1, toNat_cast_max_sub_one nd,
      goShlOne_eq _ (pow_lt_of_mul_specBase aw _ hpow), hd0, hdelay]

/-- Counterexample for C2 as stated: the formula fails at delivery count 33
(`AckWait` 30s, jitter draw 0, a legal draw since the run's jitter range is
the 1 ms floor): the int64 product `base * 2^32` wraps negative, escapes
the cap, and the final floor returns the 7.5 s base, while the claim's
formula gives the 29 s cap. -/
theorem nakDelay_overflow_counterexample :
    nakDelay 30000000000 33 0 = some 7500000000 ∧
    nakJitterRange 30000000000 33 = 1000000 ∧
    specNakDelay 30000000000 33 0 = 29000000000 ∧
    (7500000000 : Int) ≠ 29000000000 :=
  ⟨by decide, by decide, by decide, by decide⟩

/-- Claim C2 (amended): for `AckWait > 0` and any delivery count, `nakDelay`
returns `delay + jitter` with `attempt = max(1, NumDelivered)`,
`base = max(1s, AckWait/4)`, `delay = min(base * 2^(attempt-1), AckWait-1s)`
(cap replaced by `base` when `AckWait - 1s ≤ 0`), the jitter drawn from
`[0, max(1ms, delay/5))`, and the `≤ 0` floor never firing — provided the
int64 arithmetic does not overflow (`NumDelivered < 2^63`,
`base * 2^(attempt-1) < 2^63` and `delay + jitter < 2^63`; beyond that the
wrapped product escapes the cap and the result degrades to the base or the
bare jitter).  For `AckWait = 30s`: attempt 1 yields `7.5s + j` with
`j < 1.5s`, hence a result in `[7.5s, 9s)`; attempt 3 saturates at
`29s + j` with `j < 5.8s`, never reaching `29s + 5.8s`. -/
theorem nakDelay_backoff_formula :
    (∀ (aw : Int) (nd : Nat) (j : Int),
      0 < aw → aw < 2 ^ 63 → (nd : Int) < 2 ^ 63 →
      specBase aw * 2 ^ (max 1 nd - 1) < 2 ^ 63 →
      0 ≤ j → j < max 1000000 (Int.tdiv (specDelay aw nd) 5) →
      specDelay aw nd + j < 2 ^ 63 →
      nakDelay aw nd j = some (specNakDelay aw nd j) ∧
        specNakDelay aw nd j = specDelay aw nd + j ∧
        nakJitterRange aw nd = max 1000000 (Int.tdiv (specDelay aw nd) 5)) ∧
    (∀ j : Int, 0 ≤ j → j < 1500000000 →
      nakDelay 30000000000 1 j = some (7500000000 + j) ∧
        7500000000 ≤ 7500000000 + j ∧ 7500000000 + j < 9000000000) ∧
    (∀ j : Int, 0 ≤ j → j < 5800000000 →
      nakDelay 30000000000 3 j = some (29000000000 + j) ∧
        29000000000 + j < 29000000000 + 5800000000) := by
  have hmain : ∀ (aw : Int) (nd : Nat) (j : Int),
      0 < aw → aw < 2 ^ 63 → (nd : Int) < 2 ^ 63 →
      specBase aw * 2 ^ (max 1 nd - 1) < 2 ^ 63 →
      0 ≤ j → specDelay aw nd + j < 2 ^ 63 →
      nakDelay aw nd j = some (specDelay aw nd + j) ∧
        nakJitterRange aw nd = max 1000000 (Int.tdiv (specDelay aw nd) 5) :=
    fun aw nd j h1 h2 h3 h4 h5 h6 => nakDelay_no_overflow aw nd j h1 h2 h3 h4 h5 h6
  refine ⟨?_, ?_, ?_⟩
  · intro aw nd j h1 h2 h3 h4 h5 _ h7
    obtain ⟨hd, hjr⟩ := hmain aw nd j h1 h2 h3 h4 h5 h7
    have hdpos : 0 < specDelay aw nd := specDelay_pos aw nd (by omega)
    have hspec : specNakDelay aw nd j = specDelay aw nd + j := by
      unfold specNakDelay
      rw [if_neg (by omega : ¬ specDelay aw nd + j ≤ 0)]
    rw [hspec]
    exact ⟨hd, rfl, hjr⟩
  · intro j hj0 hj1
    have hsd : specDelay 30000000000 1 = 7500000000 := by decide
    obtain ⟨hd, _⟩ := hmain 30000000000 1 j (by norm_num) (by norm_num) (by norm_num)
      (by decide) hj0 (by rw [hsd]; omega)
    rw [hsd] at hd
    exact ⟨hd, by omega, by omega⟩
  · intro j hj0 hj1
    have hsd : specDelay 30000000000 3 = 29000000000 := by decide
    obtain ⟨hd, _⟩ := hmain 30000000000 3 j (by norm_num) (by norm_num) (by norm_num)
      (by decide) hj0 (by rw [hsd]; omega)
    rw [hsd] at hd
    exact ⟨hd, by omega⟩

/-- Witness for C2 (amended): at `AckWait = 30s`, first attempt, jitter
draw 0, the computed retry delay is exactly the 7.5 s base. -/
theorem nakDelay_backoff_formula_witness :
    nakDelay 30000000000 1 0 = some 7500000000 ∧
    (7500000000 : Int) < 9000000000 := by
  obtain ⟨hd, _, _⟩ := nakDelay_backoff_formula.2.1 0 (by norm_num) (by norm_num)
  exact ⟨by simpa using hd, by norm_num⟩

end Weedbox
